import Mathlib

/-!
Shallow embedding of the mspm0flash flashing tool (TI MSPM0 bootstrap-loader
client).  Byte buffers are `List Nat` with every element a byte value; C
unsigned arithmetic is `Nat` with explicit truncation (`% 2 ^ 32`, masks)
where the source truncates.  The definitions mirror, function by function,
the source in `bsl.c` (crc32, add_crc, the bsl_* command builders,
check_bsl_acknowledgement, check_bsl_response, uart_write_read) and in
`main.c` (load_fw_image, cmd_prog).  Device-side behaviour and the poll
environment of the UART loop are oracle parameters, so that the host-side
algorithms stay pure functions of their inputs.
-/

set_option maxRecDepth 4000

namespace Mspm0

/-! ### Constants from bsl.h -/

def BSL_CMD_HEADER : Nat := 0x80
def BSL_HEADER_SIZE : Nat := 3
def BSL_CRC_SIZE : Nat := 4

def BSL_CMD_CONNECTION : Nat := 0x12
def BSL_CMD_MASS_ERASE : Nat := 0x15
def BSL_CMD_GET_DEVICE_INFO : Nat := 0x19
def BSL_CMD_PROGRAM_DATA : Nat := 0x20
def BSL_CMD_UNLOCK_BL : Nat := 0x21
def BSL_CMD_STANDALONE_VERIFICATION : Nat := 0x26
def BSL_CMD_MEMORY_READ_BACK : Nat := 0x29
def BSL_CMD_START_APPLICATION : Nat := 0x40
def BSL_CMD_CHANGE_BAUDRATE : Nat := 0x52

def BSL_ACK : Nat := 0x00

def BSL_CORE_RSP_MESSAGE : Nat := 0x3B

def BSL_CORE_MSG_OPERATION_SUCCESSFUL : Nat := 0x00

/-- the eleven application-status error codes BSL_CORE_MSG_BSL_LOCKED_ERROR
(0x01) through BSL_CORE_MSG_INVALID_LENGTH (0x0b) from bsl.h -/
def BSL_CORE_MSG_ERROR_CODES : List Nat :=
  [0x01, 0x02, 0x03, 0x04, 0x05, 0x06, 0x07, 0x08, 0x09, 0x0a, 0x0b]

def BSL_PROGGRAM_DATA_MAX_LEN : Nat := 256

/-- BSL_PROGRAM_TX_BUFFER_LEN, the size of the tx stack buffer of
bsl_program_data: BSL_PROGGRAM_DATA_MAX_LEN + 12 -/
def BSL_PROGRAM_TX_BUFFER_LEN : Nat := BSL_PROGGRAM_DATA_MAX_LEN + 12

/-! ### crc32 (bsl.c) -/

def POLY : Nat := 0xEDB88320

/-- one inner round of crc32: mask = -(crc & 1) in 32-bit two's complement,
then crc = (crc >> 1) ^ (POLY & mask) -/
def crcStep (crc : Nat) : Nat :=
  (crc >>> 1) ^^^ (POLY &&& ((2 ^ 32 - (crc &&& 1)) % 2 ^ 32))

/-- per-byte update of crc32: crc = crc ^ buf[i], then eight rounds -/
def crcByte (crc b : Nat) : Nat := crcStep^[8] (crc ^^^ b)

/-- crc32(buf, len): initial value 0xFFFFFFFF, bit-serial update for each
byte, no final xor -/
def crc32 (buf : List Nat) : Nat := buf.foldl crcByte 0xFFFFFFFF

/-! ### Packet codec (bsl.c) -/

/-- a 32-bit value split into four bytes, little-endian, as the four
(crc >> 0..24) & 0xff stores of add_crc and the A1..A4 / L1..L4 argument
bytes of the command builders -/
def le32 (n : Nat) : List Nat :=
  [n &&& 0xff, (n >>> 8) &&& 0xff, (n >>> 16) &&& 0xff, (n >>> 24) &&& 0xff]

/-- add_crc(data, len): reads core_data_len = data[1] | data[2] << 8,
computes crc32 over the core_data_len bytes starting at offset 3 and stores
it little-endian at offset 3 + core_data_len.  The value returned here is
the BSL_TX_LEN = 3 + core_data_len + 4 bytes that the callers then hand to
bsl_write_read. -/
def add_crc (data : List Nat) : List Nat :=
  let core_data_len := data.getD 1 0 ||| (data.getD 2 0) <<< 8
  let core := (data.drop 3).take core_data_len
  data.take (3 + core_data_len) ++ le32 (crc32 core)

/-! ### Request frames built by the command operations (bsl.c)

Each bsl_* function fills tx[0] = BSL_CMD_HEADER, tx[1..2] = payload length
little-endian, tx[3..] = command byte and fields, calls add_crc and sends
BSL_TX_LEN bytes.  The definitions below are those transmitted frames. -/

def bsl_connect_tx : List Nat :=
  add_crc [BSL_CMD_HEADER, 1, 0, BSL_CMD_CONNECTION]

def bsl_get_device_info_tx : List Nat :=
  add_crc [BSL_CMD_HEADER, 1, 0, BSL_CMD_GET_DEVICE_INFO]

def bsl_unlock_bootloader_tx : List Nat :=
  add_crc ([BSL_CMD_HEADER, 33, 0, BSL_CMD_UNLOCK_BL] ++ List.replicate 32 0xff)

def bsl_mass_erase_tx : List Nat :=
  add_crc [BSL_CMD_HEADER, 1, 0, BSL_CMD_MASS_ERASE]

def bsl_readback_data_tx (start count : Nat) : List Nat :=
  add_crc ([BSL_CMD_HEADER, 9, 0, BSL_CMD_MEMORY_READ_BACK] ++ le32 start ++ le32 count)

def bsl_program_data_tx (address : Nat) (data : List Nat) : List Nat :=
  add_crc ([BSL_CMD_HEADER, (5 + data.length) &&& 0xff, ((5 + data.length) >>> 8) &&& 0xff,
    BSL_CMD_PROGRAM_DATA] ++ le32 address ++ data)

def bsl_verification_tx (address len : Nat) : List Nat :=
  add_crc ([BSL_CMD_HEADER, 9, 0, BSL_CMD_STANDALONE_VERIFICATION] ++ le32 address ++ le32 len)

def bsl_start_application_tx : List Nat :=
  add_crc [BSL_CMD_HEADER, 1, 0, BSL_CMD_START_APPLICATION]

def bsl_change_baudrate_tx (baudrate : Nat) : List Nat :=
  add_crc [BSL_CMD_HEADER, 2, 0, BSL_CMD_CHANGE_BAUDRATE, baudrate]

/-- frame invariant of the wire format: byte 0 is 0x80, bytes 1-2 are the
16-bit little-endian byte count of the payload (command byte plus fields),
and the trailer is crc32 of the payload only, appended little-endian -/
def FrameOk (frame : List Nat) : Prop :=
  ∃ payload : List Nat, payload.length < 2 ^ 16 ∧
    (payload.length &&& 0xff) + 2 ^ 8 * ((payload.length >>> 8) &&& 0xff) = payload.length ∧
    frame = BSL_CMD_HEADER :: (payload.length &&& 0xff) ::
      ((payload.length >>> 8) &&& 0xff) :: (payload ++ le32 (crc32 payload))

/-! ### Response checking (bsl.c) -/

/-- check_bsl_acknowledgement: 0 when the byte is BSL_ACK, otherwise 1
(after printing one of the six NACK diagnoses or the unknown-ack default) -/
def check_bsl_acknowledgement (ack : Nat) : Nat :=
  if ack = BSL_ACK then 0 else 1

/-- check_bsl_response(buffer, len): reject empty input, a non-ACK
acknowledgement byte, a sub-header byte different from 0x08; when byte 4 is
the message tag 0x3B and byte 5 is non-zero, the eleven switch cases
0x01..0x0b each return 1, and a byte 5 matching no case falls through to
the final return 0.  Reads of bytes 1, 4, 5 hit the caller's zero-filled
rx buffer, hence the default 0. -/
def check_bsl_response (buffer : List Nat) (len : Nat) : Nat :=
  if len = 0 then 1
  else if check_bsl_acknowledgement (buffer.getD 0 0) ≠ 0 then 1
  else if buffer.getD 1 0 ≠ 0x08 then 1
  else if buffer.getD 4 0 = BSL_CORE_RSP_MESSAGE ∧
      buffer.getD 5 0 ≠ BSL_CORE_MSG_OPERATION_SUCCESSFUL then
    if buffer.getD 5 0 = 0x01 then 1
    else if buffer.getD 5 0 = 0x02 then 1
    else if buffer.getD 5 0 = 0x03 then 1
    else if buffer.getD 5 0 = 0x04 then 1
    else if buffer.getD 5 0 = 0x05 then 1
    else if buffer.getD 5 0 = 0x06 then 1
    else if buffer.getD 5 0 = 0x07 then 1
    else if buffer.getD 5 0 = 0x08 then 1
    else if buffer.getD 5 0 = 0x09 then 1
    else if buffer.getD 5 0 = 0x0a then 1
    else if buffer.getD 5 0 = 0x0b then 1
    else 0
  else 0

/-! ### uart_write_read (bsl.c) -/

/-- the bounded select() wait of one poll cycle, in milliseconds -/
def timeout_ms : Nat := 500

/-- outcome of one poll cycle: select() returns 1 and read() delivers the
listed bytes, select() returns 0 (timeout), or select() returns -1 -/
inductive PollOutcome where
  | ready : List Nat → PollOutcome
  | timedOut : PollOutcome
  | failed : PollOutcome

/-- result of uart_write_read: rc 0 with the assembled rx buffer, rc 1 from
a select() failure, rc EIO from a timeout, or an abort of the
assert(cnt > 0) when read() delivers nothing -/
inductive UartResult where
  | ok : List Nat → UartResult
  | selectError : UartResult
  | timeoutError : UartResult
  | assertAbort : UartResult
deriving DecidableEq

/-- the while (idx < read_len) loop of uart_write_read; `rx` is the bytes
accumulated so far (idx = rx.length), `step` numbers the poll cycles, and
the returned Nat counts the poll cycles consumed.  read() delivers at most
read_len - idx bytes of what is available. -/
def uartLoop (env : Nat → PollOutcome) (read_len step : Nat) (rx : List Nat) :
    UartResult × Nat :=
  if h : rx.length < read_len then
    match env step with
    | PollOutcome.failed => (UartResult.selectError, 1)
    | PollOutcome.timedOut => (UartResult.timeoutError, 1)
    | PollOutcome.ready avail =>
      if avail.take (read_len - rx.length) = [] then (UartResult.assertAbort, 1)
      else
        let r := uartLoop env read_len (step + 1) (rx ++ avail.take (read_len - rx.length))
        (r.1, r.2 + 1)
  else (UartResult.ok rx, 0)
termination_by read_len - rx.length
decreasing_by
  rename_i hne
  have ht := List.length_pos.mpr hne
  simp only [List.length_append, List.length_take, inf_eq_min] at ht ⊢
  omega

/-- uart_write_read(fd, tx, write_len, rx, read_len): write() sends the
whole request, then the poll loop runs; the first component records the
bytes written -/
def uart_write_read (env : Nat → PollOutcome) (tx : List Nat) (read_len : Nat) :
    List Nat × (UartResult × Nat) :=
  (tx, uartLoop env read_len 0 [])

/-- concatenation of the first k blocks of a stream of byte lists -/
def streamConcat (f : Nat → List Nat) : Nat → List Nat
  | 0 => []
  | k + 1 => streamConcat f k ++ f k

/-! ### load_fw_image (main.c) -/

/-- the 4 KiB padding of load_fw_image: len_pad = (len + 4095) & (~0xfff),
evaluated in 64-bit arithmetic -/
def pad4k (len : Nat) : Nat := (len + 4095) &&& (2 ^ 64 - 4096)

/-- the 1 KiB verify window of cmd_prog: pad_len = (total_len + 1023)
& (~0x3ff), evaluated in 64-bit arithmetic and assigned to a uint32_t -/
def pad1k (total_len : Nat) : Nat :=
  ((total_len + 1023) &&& (2 ^ 64 - 1024)) % 2 ^ 32

/-- load_fw_image(filename, _buf, _len, len_pad): none when the file is
empty (rc = EIO); otherwise a malloc'd buffer of len_pad bytes (defaulted
to the 4 KiB padding of the file length when the argument is 0), filled
with 0xff and overwritten at the front with the file contents; *_len
receives len_pad, which is the returned list's length -/
def load_fw_image (file : List Nat) (len_pad : Nat) : Option (List Nat) :=
  if file.length = 0 then none
  else
    let lp := if len_pad = 0 then pad4k file.length else len_pad
    some (file ++ List.replicate (lp - file.length) 0xff)

/-! ### cmd_prog (main.c) -/

/-- oracle for the device side of one flashing session: outcome of the
unlock and mass-erase commands, the per-chunk outcome of program-data, and
the verification response (none: transport or response failure inside
bsl_verification; some crc: success together with the device-computed
CRC) -/
structure Device where
  unlockOk : Bool
  eraseOk : Bool
  progOk : Nat → List Nat → Bool
  verifyResp : Option Nat

/-- protocol-visible actions of cmd_prog, in order -/
inductive Event where
  | unlock : Event
  | erase : Event
  | progData : Nat → List Nat → Event
  | verify : Nat → Nat → Event
  | startApp : Event
deriving DecidableEq

/-- the while (len > 0) programming loop of cmd_prog: chunks of
min(len, 256) bytes, address advanced by the chunk size, aborting on the
first failed bsl_program_data.  Returns the loop outcome and the
(address, chunk) trace of the bsl_program_data calls made. -/
def progLoop (dev : Device) (address : Nat) (img : List Nat) :
    Bool × List (Nat × List Nat) :=
  if h : img = [] then (true, [])
  else
    let write_len := if img.length > BSL_PROGGRAM_DATA_MAX_LEN
      then BSL_PROGGRAM_DATA_MAX_LEN else img.length
    let chunk := img.take write_len
    if dev.progOk address chunk then
      let r := progLoop dev (address + write_len) (img.drop write_len)
      (r.1, (address, chunk) :: r.2)
    else (false, [(address, chunk)])
termination_by img.length
decreasing_by
  simp only [List.length_drop, BSL_PROGGRAM_DATA_MAX_LEN]
  have h1 : 0 < img.length := List.length_pos.mpr h
  split <;> omega

/-- cmd_prog(intf, filename): load the 4 KiB-padded image, unlock,
mass-erase, chunked program loop, then the CRC verification over the 1 KiB
verify window starting at address 0; FAIL (rc 1) when the device CRC and
crc32 of the in-memory image differ.  Returns the C return code and the
ordered trace of protocol actions. -/
def cmd_prog (dev : Device) (file : List Nat) : Int × List Event :=
  match load_fw_image file 0 with
  | none => (-1, [])
  | some fw_buf =>
    if dev.unlockOk = false then (1, [Event.unlock])
    else if dev.eraseOk = false then (1, [Event.unlock, Event.erase])
    else
      let r := progLoop dev 0 fw_buf
      let evs := Event.unlock :: Event.erase ::
        r.2.map (fun p => Event.progData p.1 p.2)
      if r.1 = false then (1, evs)
      else
        let pad_len := pad1k fw_buf.length
        match dev.verifyResp with
        | none => (1, evs ++ [Event.verify 0 pad_len])
        | some crc_bsl =>
          if crc32 (fw_buf.take pad_len) ≠ crc_bsl then
            (1, evs ++ [Event.verify 0 pad_len])
          else (0, evs ++ [Event.verify 0 pad_len])

/-- the 4 KiB-padded in-memory image that load_fw_image hands to cmd_prog
for a non-empty file -/
def fwImage (file : List Nat) : List Nat :=
  file ++ List.replicate (pad4k file.length - file.length) 0xff

/-- the (address, chunk) trace entries are consecutive: each entry starts
where the previous chunk ended -/
def ChunkSeq : Nat → List (Nat × List Nat) → Prop
  | _, [] => True
  | a, p :: rest => p.1 = a ∧ ChunkSeq (a + p.2.length) rest

/-- the events of the unlock, erase and programming stages of cmd_prog -/
def progEvents (dev : Device) (file : List Nat) : List Event :=
  Event.unlock :: Event.erase ::
    (progLoop dev 0 (fwImage file)).2.map (fun p => Event.progData p.1 p.2)

/-! ### Arithmetic and list helpers -/

lemma and_ff (n : Nat) : n &&& 0xff = n % 256 :=
  Nat.and_pow_two_sub_one_eq_mod n 8

lemma shiftr8 (n : Nat) : n >>> 8 = n / 256 :=
  Nat.shiftRight_eq_div_pow n 8

lemma lor_low_high (a b : Nat) (ha : a < 2 ^ 8) : a ||| b <<< 8 = a + 2 ^ 8 * b := by
  apply Nat.eq_of_testBit_eq
  intro i
  rw [Nat.testBit_lor, Nat.testBit_shiftLeft]
  rcases Nat.lt_or_ge i 8 with hi | hi
  · have h8 : ¬ (i ≥ 8) := by omega
    have hm : (a + 2 ^ 8 * b).testBit i = ((a + 2 ^ 8 * b) % 2 ^ 8).testBit i := by
      rw [Nat.testBit_mod_two_pow]
      simp [hi]
    rw [hm, Nat.add_mul_mod_self_left, Nat.mod_eq_of_lt ha]
    simp [h8]
  · have ha2 : a.testBit i = false :=
      Nat.testBit_eq_false_of_lt (lt_of_lt_of_le ha (Nat.pow_le_pow_right (by norm_num) hi))
    have hs : (a + 2 ^ 8 * b).testBit i = ((a + 2 ^ 8 * b) >>> 8).testBit (i - 8) := by
      rw [Nat.testBit_shiftRight]
      congr 1
      omega
    rw [hs, Nat.shiftRight_eq_div_pow, Nat.add_mul_div_left _ _ (by norm_num : 0 < 2 ^ 8),
      Nat.div_eq_of_lt ha]
    simp [hi, ha2]

lemma and_high_mask (w k n : Nat) (hk : k ≤ w) (hn : n < 2 ^ w) :
    n &&& (2 ^ w - 2 ^ k) = 2 ^ k * (n / 2 ^ k) := by
  have hmask : 2 ^ w - 2 ^ k = (2 ^ (w - k) - 1) <<< k := by
    rw [Nat.shiftLeft_eq, Nat.sub_mul, Nat.one_mul, ← Nat.pow_add, Nat.sub_add_cancel hk]
  have hr : 2 ^ k * (n / 2 ^ k) = (n >>> k) <<< k := by
    rw [Nat.shiftLeft_eq, Nat.shiftRight_eq_div_pow, Nat.mul_comm]
  rw [hmask, hr]
  apply Nat.eq_of_testBit_eq
  intro i
  rw [Nat.testBit_land, Nat.testBit_shiftLeft, Nat.testBit_shiftLeft, Nat.testBit_shiftRight,
    Nat.testBit_two_pow_sub_one]
  rcases Nat.lt_or_ge i k with hik | hik
  · have hik2 : ¬ (i ≥ k) := by omega
    simp [hik2]
  · have h2 : k + (i - k) = i := by omega
    rcases Nat.lt_or_ge i w with hiw | hiw
    · have h3 : i - k < w - k := by omega
      simp [hik, h3, h2]
    · have h3 : ¬ (i - k < w - k) := by omega
      have h4 : n.testBit i = false :=
        Nat.testBit_eq_false_of_lt (lt_of_lt_of_le hn (Nat.pow_le_pow_right (by norm_num) hiw))
      simp [hik, h3, h2, h4]

lemma getD_replicate (n i a d : Nat) :
    (List.replicate n a).getD i d = if i < n then a else d := by
  induction n generalizing i with
  | zero => simp [List.getD]
  | succ n ih =>
    cases i with
    | zero => simp [List.replicate]
    | succ i =>
      simp only [List.replicate, List.getD_cons_succ, ih, Nat.succ_lt_succ_iff]

lemma le16_decode (L : Nat) (h : L < 2 ^ 16) :
    (L &&& 0xff) + 2 ^ 8 * ((L >>> 8) &&& 0xff) = L := by
  rw [and_ff, shiftr8, and_ff]
  omega

lemma add_crc_build (payload : List Nat) (h : payload.length < 2 ^ 16) :
    add_crc (BSL_CMD_HEADER :: (payload.length &&& 0xff) ::
        ((payload.length >>> 8) &&& 0xff) :: payload) =
      BSL_CMD_HEADER :: (payload.length &&& 0xff) ::
        ((payload.length >>> 8) &&& 0xff) :: (payload ++ le32 (crc32 payload)) := by
  have hcore : (payload.length &&& 0xff) ||| ((payload.length >>> 8) &&& 0xff) <<< 8
      = payload.length := by
    have hlt : payload.length &&& 0xff < 2 ^ 8 := by
      rw [and_ff]
      omega
    rw [lor_low_high _ _ hlt]
    exact le16_decode _ h
  unfold add_crc
  simp only [List.getD_cons_succ, List.getD_cons_zero, hcore]
  have hdrop : (BSL_CMD_HEADER :: (payload.length &&& 0xff) ::
      ((payload.length >>> 8) &&& 0xff) :: payload).drop 3 = payload := rfl
  have htake : (BSL_CMD_HEADER :: (payload.length &&& 0xff) ::
      ((payload.length >>> 8) &&& 0xff) :: payload).take (3 + payload.length) =
      BSL_CMD_HEADER :: (payload.length &&& 0xff) ::
        ((payload.length >>> 8) &&& 0xff) :: payload := by
    apply List.take_of_length_le
    simp only [List.length_cons]
    omega
  rw [hdrop, htake, List.take_length]
  simp [List.cons_append]

lemma frameOk_of_add_crc (payload : List Nat) (h : payload.length < 2 ^ 16) :
    FrameOk (add_crc (BSL_CMD_HEADER :: (payload.length &&& 0xff) ::
      ((payload.length >>> 8) &&& 0xff) :: payload)) :=
  ⟨payload, h, le16_decode _ h, add_crc_build payload h⟩

lemma frame_cmd_rest (cmd lo hi : Nat) (rest : List Nat) (h : rest.length + 1 < 2 ^ 16)
    (hlo : lo = (rest.length + 1) &&& 0xff)
    (hhi : hi = ((rest.length + 1) >>> 8) &&& 0xff) :
    FrameOk (add_crc (BSL_CMD_HEADER :: lo :: hi :: cmd :: rest)) := by
  subst hlo hhi
  have h2 := frameOk_of_add_crc (cmd :: rest) (by simpa using h)
  simpa using h2

/-! ### Claims -/

/-- C3: crc32 is the bit-serial reflected-0xEDB88320 CRC with seed
0xFFFFFFFF, one xor-then-8-rounds update per byte and no final xor: on the
empty input it returns 0xFFFFFFFF (not 0), extending the input by a byte
just continues the state update, and on "123456789" it returns 0x340BC6D9,
which is the standard table CRC-32 value 0xCBF43926 with the final xor
missing, not the standard value itself. -/
theorem c3_crc32_bit_serial :
    crc32 [] = 0xFFFFFFFF ∧
    (∀ bs b, crc32 (bs ++ [b]) = crcStep^[8] (crc32 bs ^^^ b)) ∧
    crc32 [0x31, 0x32, 0x33, 0x34, 0x35, 0x36, 0x37, 0x38, 0x39] = 0x340BC6D9 ∧
    0x340BC6D9 ^^^ 0xFFFFFFFF = 0xCBF43926 ∧
    crc32 [0x31, 0x32, 0x33, 0x34, 0x35, 0x36, 0x37, 0x38, 0x39] ≠ 0xCBF43926 := by
  refine ⟨rfl, ?_, by decide, by decide, by decide⟩
  intro bs b
  simp [crc32, List.foldl_append, crcByte]

/-- the frame bsl_program_data builds for any chunk: header, 16-bit length
bytes of 5 + len, command, address, data, crc trailer -/
lemma program_data_frame (address : Nat) (data : List Nat)
    (h : 5 + data.length < 2 ^ 16) :
    bsl_program_data_tx address data =
      BSL_CMD_HEADER :: ((5 + data.length) &&& 0xff) ::
        (((5 + data.length) >>> 8) &&& 0xff) ::
        ((BSL_CMD_PROGRAM_DATA :: (le32 address ++ data)) ++
          le32 (crc32 (BSL_CMD_PROGRAM_DATA :: (le32 address ++ data)))) := by
  have hlen : (BSL_CMD_PROGRAM_DATA :: (le32 address ++ data)).length = 5 + data.length := by
    simp [le32] <;> omega
  have hb := add_crc_build (BSL_CMD_PROGRAM_DATA :: (le32 address ++ data)) (by rw [hlen]; omega)
  rw [hlen] at hb
  rw [← hb]
  rfl

/-- C2 (code bug): bsl_program_data performs no length check at all.
Called with a 257-byte chunk it builds and transmits a full
BSL_TX_LEN = 269-byte frame that carries all 257 data bytes, even though
its tx stack buffer only holds BSL_PROGRAM_TX_BUFFER_LEN = 268 bytes, so
add_crc writes the last CRC byte out of bounds; nothing fails before
transmission. -/
theorem c2_program_data_overflow :
    (bsl_program_data_tx 0 (List.replicate 257 0xab)).length = 269 ∧
    bsl_program_data_tx 0 (List.replicate 257 0xab) =
      0x80 :: 0x06 :: 0x01 ::
        ((BSL_CMD_PROGRAM_DATA :: (le32 0 ++ List.replicate 257 0xab)) ++
          le32 (crc32 (BSL_CMD_PROGRAM_DATA :: (le32 0 ++ List.replicate 257 0xab)))) ∧
    BSL_PROGRAM_TX_BUFFER_LEN = 268 ∧ 268 < 269 := by
  have hfr := program_data_frame 0 (List.replicate 257 0xab) (by simp)
  simp only [List.length_replicate] at hfr
  rw [show ((5 + 257) &&& 0xff : Nat) = 0x06 from by decide,
    show (((5 + 257) >>> 8) &&& 0xff : Nat) = 0x01 from by decide] at hfr
  refine ⟨?_, ?_, by decide, by decide⟩
  · rw [hfr]
    simp [le32]
  · rw [hfr]
    rfl

/-- C4: every request frame built by the nine command operations satisfies
the frame invariant: byte 0 is 0x80, bytes 1-2 are the little-endian
16-bit payload length equal to the actual payload length (command byte
plus fields), and the 4-byte trailer is crc32 of the payload only,
appended little-endian. -/
theorem c4_frame_invariant (start count address len baudrate : Nat) (data : List Nat)
    (hdata : data.length ≤ BSL_PROGGRAM_DATA_MAX_LEN) :
    FrameOk bsl_connect_tx ∧
    FrameOk bsl_get_device_info_tx ∧
    FrameOk bsl_unlock_bootloader_tx ∧
    FrameOk bsl_mass_erase_tx ∧
    FrameOk (bsl_program_data_tx address data) ∧
    FrameOk (bsl_readback_data_tx start count) ∧
    FrameOk (bsl_verification_tx address len) ∧
    FrameOk bsl_start_application_tx ∧
    FrameOk (bsl_change_baudrate_tx baudrate) := by
  refine ⟨?_, ?_, ?_, ?_, ?_, ?_, ?_, ?_, ?_⟩
  · exact frame_cmd_rest BSL_CMD_CONNECTION 1 0 [] (by decide) (by decide) (by decide)
  · exact frame_cmd_rest BSL_CMD_GET_DEVICE_INFO 1 0 [] (by decide) (by decide) (by decide)
  · have h : bsl_unlock_bootloader_tx =
        add_crc (BSL_CMD_HEADER :: 33 :: 0 :: BSL_CMD_UNLOCK_BL :: List.replicate 32 0xff) := rfl
    rw [h]
    exact frame_cmd_rest BSL_CMD_UNLOCK_BL 33 0 (List.replicate 32 0xff)
      (by simp) (by simp <;> decide) (by simp <;> decide)
  · exact frame_cmd_rest BSL_CMD_MASS_ERASE 1 0 [] (by decide) (by decide) (by decide)
  · have hlen : (BSL_CMD_PROGRAM_DATA :: (le32 address ++ data)).length = 5 + data.length := by
      simp [le32] <;> omega
    have hbound : 5 + data.length < 2 ^ 16 := by
      have : data.length ≤ 256 := hdata
      omega
    refine ⟨BSL_CMD_PROGRAM_DATA :: (le32 address ++ data), ?_, ?_, ?_⟩
    · rw [hlen]
      exact hbound
    · exact le16_decode _ (by rw [hlen]; exact hbound)
    · rw [hlen]
      exact program_data_frame address data hbound
  · have h : bsl_readback_data_tx start count =
        add_crc (BSL_CMD_HEADER :: 9 :: 0 :: BSL_CMD_MEMORY_READ_BACK ::
          (le32 start ++ le32 count)) := rfl
    rw [h]
    exact frame_cmd_rest BSL_CMD_MEMORY_READ_BACK 9 0 (le32 start ++ le32 count)
      (by simp [le32]) (by simp [le32] <;> decide) (by simp [le32] <;> decide)
  · have h : bsl_verification_tx address len =
        add_crc (BSL_CMD_HEADER :: 9 :: 0 :: BSL_CMD_STANDALONE_VERIFICATION ::
          (le32 address ++ le32 len)) := rfl
    rw [h]
    exact frame_cmd_rest BSL_CMD_STANDALONE_VERIFICATION 9 0 (le32 address ++ le32 len)
      (by simp [le32]) (by simp [le32] <;> decide) (by simp [le32] <;> decide)
  · exact frame_cmd_rest BSL_CMD_START_APPLICATION 1 0 [] (by decide) (by decide) (by decide)
  · exact frame_cmd_rest BSL_CMD_CHANGE_BAUDRATE 2 0 [baudrate] (by simp)
      (by simp <;> decide) (by simp <;> decide)

/-- C4 witness: the invariant instantiated at concrete arguments, a 256-byte
chunk included. -/
theorem c4_frame_invariant_witness :
    (List.replicate 256 (0x5a : Nat)).length ≤ BSL_PROGGRAM_DATA_MAX_LEN ∧
    FrameOk bsl_connect_tx ∧ FrameOk (bsl_program_data_tx 0x1000 (List.replicate 256 0x5a)) := by
  have h := c4_frame_invariant 0 0 0x1000 1024 2 (List.replicate 256 0x5a) (by simp [BSL_PROGGRAM_DATA_MAX_LEN])
  exact ⟨by simp [BSL_PROGGRAM_DATA_MAX_LEN], h.1, h.2.2.2.2.1⟩

lemma mem_error_codes_iff (s : Nat) :
    s ∈ BSL_CORE_MSG_ERROR_CODES ↔ 1 ≤ s ∧ s ≤ 0x0b := by
  simp [BSL_CORE_MSG_ERROR_CODES]
  omega

/-- the eleven switch cases of check_bsl_response, as one interval test -/
lemma response_switch_eq (s : Nat) :
    (if s = 0x01 then (1 : Nat) else if s = 0x02 then 1 else if s = 0x03 then 1
     else if s = 0x04 then 1 else if s = 0x05 then 1 else if s = 0x06 then 1
     else if s = 0x07 then 1 else if s = 0x08 then 1 else if s = 0x09 then 1
     else if s = 0x0a then 1 else if s = 0x0b then 1 else 0) =
      if 1 ≤ s ∧ s ≤ 0x0b then 1 else 0 := by
  rcases Nat.lt_or_ge s 12 with h | h
  · interval_cases s <;> rfl
  · have h1 : ¬ (s = 0x01) := by omega
    have h2 : ¬ (s = 0x02) := by omega
    have h3 : ¬ (s = 0x03) := by omega
    have h4 : ¬ (s = 0x04) := by omega
    have h5 : ¬ (s = 0x05) := by omega
    have h6 : ¬ (s = 0x06) := by omega
    have h7 : ¬ (s = 0x07) := by omega
    have h8 : ¬ (s = 0x08) := by omega
    have h9 : ¬ (s = 0x09) := by omega
    have h10 : ¬ (s = 0x0a) := by omega
    have h11 : ¬ (s = 0x0b) := by omega
    have h12 : ¬ (1 ≤ s ∧ s ≤ 0x0b) := by omega
    rw [if_neg h1, if_neg h2, if_neg h3, if_neg h4, if_neg h5, if_neg h6, if_neg h7,
      if_neg h8, if_neg h9, if_neg h10, if_neg h11, if_neg h12]

/-- closed form of check_bsl_response -/
lemma check_bsl_response_eq (buffer : List Nat) (len : Nat) :
    check_bsl_response buffer len =
      if len = 0 then 1
      else if buffer.getD 0 0 ≠ BSL_ACK then 1
      else if buffer.getD 1 0 ≠ 0x08 then 1
      else if buffer.getD 4 0 = BSL_CORE_RSP_MESSAGE ∧
          1 ≤ buffer.getD 5 0 ∧ buffer.getD 5 0 ≤ 0x0b then 1
      else 0 := by
  unfold check_bsl_response check_bsl_acknowledgement
  rw [response_switch_eq]
  by_cases hl : len = 0
  · rw [if_pos hl, if_pos hl]
  rw [if_neg hl, if_neg hl]
  by_cases h0 : buffer.getD 0 0 = BSL_ACK
  case neg =>
    have hc : (if buffer.getD 0 0 = BSL_ACK then (0 : Nat) else 1) ≠ 0 := by
      rw [if_neg h0]
      simp
    rw [if_pos hc, if_pos h0]
  case pos =>
    have hc : ¬ ((if buffer.getD 0 0 = BSL_ACK then (0 : Nat) else 1) ≠ 0) := by
      rw [if_pos h0]
      simp
    rw [if_neg hc, if_neg (show ¬ buffer.getD 0 0 ≠ BSL_ACK from fun hn => hn h0)]
    by_cases h1 : buffer.getD 1 0 = 0x08
    case neg =>
      rw [if_pos h1, if_pos h1]
    case pos =>
      rw [if_neg (show ¬ buffer.getD 1 0 ≠ 0x08 from fun hn => hn h1),
        if_neg (show ¬ buffer.getD 1 0 ≠ 0x08 from fun hn => hn h1)]
      by_cases htag : buffer.getD 4 0 = BSL_CORE_RSP_MESSAGE
      case neg =>
        rw [if_neg (show ¬ (buffer.getD 4 0 = BSL_CORE_RSP_MESSAGE ∧
            buffer.getD 5 0 ≠ BSL_CORE_MSG_OPERATION_SUCCESSFUL) from fun hn => htag hn.1),
          if_neg (show ¬ (buffer.getD 4 0 = BSL_CORE_RSP_MESSAGE ∧
            1 ≤ buffer.getD 5 0 ∧ buffer.getD 5 0 ≤ 0x0b) from fun hn => htag hn.1)]
      case pos =>
        by_cases hin : 1 ≤ buffer.getD 5 0 ∧ buffer.getD 5 0 ≤ 0x0b
        · have hs0 : buffer.getD 5 0 ≠ BSL_CORE_MSG_OPERATION_SUCCESSFUL := by
            unfold BSL_CORE_MSG_OPERATION_SUCCESSFUL
            omega
          rw [if_pos ⟨htag, hs0⟩, if_pos hin, if_pos ⟨htag, hin⟩]
        · by_cases hs0 : buffer.getD 5 0 = BSL_CORE_MSG_OPERATION_SUCCESSFUL
          · rw [if_neg (show ¬ (buffer.getD 4 0 = BSL_CORE_RSP_MESSAGE ∧
                buffer.getD 5 0 ≠ BSL_CORE_MSG_OPERATION_SUCCESSFUL) from fun hn => hn.2 hs0),
              if_neg (show ¬ (buffer.getD 4 0 = BSL_CORE_RSP_MESSAGE ∧
                1 ≤ buffer.getD 5 0 ∧ buffer.getD 5 0 ≤ 0x0b) from fun hn => hin hn.2)]
          · rw [if_pos ⟨htag, hs0⟩, if_neg hin,
              if_neg (show ¬ (buffer.getD 4 0 = BSL_CORE_RSP_MESSAGE ∧
                1 ≤ buffer.getD 5 0 ∧ buffer.getD 5 0 ≤ 0x0b) from fun hn => hin hn.2)]

/-- C5: check_bsl_response fails on empty input, on a non-ACK
acknowledgement byte, and on a sub-header byte different from 0x08; when
byte 4 is the message tag 0x3B, a byte 5 matching one of the eleven
mapped application-status error codes is a failure and the
operation-successful byte 0x00 is not; in every other case it reports
success.  Stated as the exact success characterisation: the call returns 0
precisely when the length is non-zero, byte 0 is ACK, byte 1 is 0x08, and
a message-tagged byte 4 does not carry a mapped error status in byte 5. -/
theorem c5_check_bsl_response (buffer : List Nat) (len : Nat) :
    (check_bsl_response buffer len = 0 ∨ check_bsl_response buffer len = 1) ∧
    (check_bsl_response buffer len = 0 ↔
      len ≠ 0 ∧ buffer.getD 0 0 = BSL_ACK ∧ buffer.getD 1 0 = 0x08 ∧
        (buffer.getD 4 0 = BSL_CORE_RSP_MESSAGE →
          buffer.getD 5 0 ∉ BSL_CORE_MSG_ERROR_CODES)) := by
  rw [check_bsl_response_eq]
  constructor
  · split_ifs <;> simp
  · simp only [mem_error_codes_iff]
    split_ifs with h1 h2 h3 h4
    · simp [h1]
    · exact iff_of_false (by simp) (fun hr => h2 hr.2.1)
    · exact iff_of_false (by simp) (fun hr => h3 hr.2.2.1)
    · exact ⟨fun hc => absurd hc (by simp),
        fun hr => absurd h4.2 (hr.2.2.2 h4.1)⟩
    · push_neg at h2 h3
      exact iff_of_true rfl ⟨h1, h2, h3, fun ht hint => h4 ⟨ht, hint⟩⟩

/-- C5 witness: the characterisation applied to the concrete all-clear
10-byte response and to a locked-error response. -/
theorem c5_check_bsl_response_witness :
    check_bsl_response [0x00, 0x08, 0x02, 0x00, 0x3b, 0x00, 1, 2, 3, 4] 10 = 0 ∧
    check_bsl_response [0x00, 0x08, 0x02, 0x00, 0x3b, 0x01, 1, 2, 3, 4] 10 ≠ 0 := by
  constructor
  · exact (c5_check_bsl_response [0x00, 0x08, 0x02, 0x00, 0x3b, 0x00, 1, 2, 3, 4] 10).2.mpr
      (by refine ⟨by decide, by decide, by decide, ?_⟩ <;> decide)
  · intro h
    have h2 := (c5_check_bsl_response [0x00, 0x08, 0x02, 0x00, 0x3b, 0x01, 1, 2, 3, 4] 10).2.mp h
    exact absurd (h2.2.2.2 (by decide)) (by decide)

/-- C9: with an ACK byte, sub-header 0x08 and message tag 0x3B, any status
byte 5 at or above 0x0c matches none of the eleven switch cases, so
check_bsl_response falls through to success (returns 0) instead of
reporting an error. -/
theorem c9_unknown_status_success (buffer : List Nat) (len : Nat)
    (hlen : len ≠ 0) (hack : buffer.getD 0 0 = BSL_ACK)
    (hhdr : buffer.getD 1 0 = 0x08) (htag : buffer.getD 4 0 = BSL_CORE_RSP_MESSAGE)
    (hst : 0x0c ≤ buffer.getD 5 0) :
    check_bsl_response buffer len = 0 := by
  rw [check_bsl_response_eq, if_neg hlen,
    if_neg (show ¬ buffer.getD 0 0 ≠ BSL_ACK from fun hn => hn hack),
    if_neg (show ¬ buffer.getD 1 0 ≠ 0x08 from fun hn => hn hhdr),
    if_neg (show ¬ (buffer.getD 4 0 = BSL_CORE_RSP_MESSAGE ∧
      1 ≤ buffer.getD 5 0 ∧ buffer.getD 5 0 ≤ 0x0b) from fun hc => by omega)]

/-- C9 witness: the unrecognized status code 0x0c is accepted as success. -/
theorem c9_unknown_status_success_witness :
    check_bsl_response [0x00, 0x08, 0x02, 0x00, 0x3b, 0x0c, 1, 2, 3, 4] 10 = 0 :=
  c9_unknown_status_success [0x00, 0x08, 0x02, 0x00, 0x3b, 0x0c, 1, 2, 3, 4] 10
    (by decide) (by decide) (by decide) (by decide) (by decide)

/-- C10: check_bsl_response depends only on bytes 0, 1, 4 and 5 of the
response: two buffers agreeing there (whatever their CRC trailer or data
bytes hold) get the same verdict, so the CRC32 of inbound frames is never
verified. -/
theorem c10_response_ignores_crc (b1 b2 : List Nat) (len : Nat)
    (h0 : b1.getD 0 0 = b2.getD 0 0) (h1 : b1.getD 1 0 = b2.getD 1 0)
    (h4 : b1.getD 4 0 = b2.getD 4 0) (h5 : b1.getD 5 0 = b2.getD 5 0) :
    check_bsl_response b1 len = check_bsl_response b2 len := by
  unfold check_bsl_response check_bsl_acknowledgement
  rw [h0, h1, h4, h5]

/-- C10 witness: two 10-byte message responses that differ in every data
and CRC-trailer byte but agree on bytes 0, 1, 4, 5 get the same verdict. -/
theorem c10_response_ignores_crc_witness :
    check_bsl_response [0x00, 0x08, 0x02, 0x00, 0x3b, 0x00, 0xde, 0xad, 0xbe, 0xef] 10 =
      check_bsl_response [0x00, 0x08, 0x99, 0x77, 0x3b, 0x00, 0x01, 0x02, 0x03, 0x04] 10 :=
  c10_response_ignores_crc
    [0x00, 0x08, 0x02, 0x00, 0x3b, 0x00, 0xde, 0xad, 0xbe, 0xef]
    [0x00, 0x08, 0x99, 0x77, 0x3b, 0x00, 0x01, 0x02, 0x03, 0x04] 10
    (by decide) (by decide) (by decide) (by decide)

lemma pad4k_eq (L : Nat) (h : L + 4095 < 2 ^ 64) :
    pad4k L = 4096 * ((L + 4095) / 4096) := by
  unfold pad4k
  exact and_high_mask 64 12 (L + 4095) (by norm_num) h

lemma pad1k_eq (L : Nat) (h : L + 1023 < 2 ^ 32) :
    pad1k L = 1024 * ((L + 1023) / 1024) := by
  unfold pad1k
  have h2 : (L + 1023) &&& (2 ^ 64 - 1024) = 1024 * ((L + 1023) / 1024) :=
    and_high_mask 64 10 (L + 1023) (by norm_num)
      (lt_trans h (by norm_num))
  rw [h2]
  apply Nat.mod_eq_of_lt
  have h3 : 1024 * ((L + 1023) / 1024) ≤ L + 1023 := by
    rw [Nat.mul_comm]
    exact Nat.div_mul_le_self _ _
  omega

/-- C7: for a non-empty image of length L, load_fw_image's default padding
is P = ceil(L/4096)*4096 (the smallest 4 KiB multiple at or above L), the
verify window of cmd_prog is ceil(L/1024)*1024 (the smallest 1 KiB multiple
at or above L), and every pad byte beyond the file contents is 0xFF. -/
theorem c7_padding_law (file : List Nat) (h0 : file ≠ [])
    (hbound : file.length + 4095 < 2 ^ 32) :
    pad4k file.length = 4096 * ((file.length + 4095) / 4096) ∧
    file.length ≤ pad4k file.length ∧
    pad4k file.length % 4096 = 0 ∧
    pad4k file.length < file.length + 4096 ∧
    pad1k file.length = 1024 * ((file.length + 1023) / 1024) ∧
    file.length ≤ pad1k file.length ∧
    pad1k file.length % 1024 = 0 ∧
    pad1k file.length < file.length + 1024 ∧
    load_fw_image file 0 =
      some (file ++ List.replicate (pad4k file.length - file.length) 0xff) ∧
    (file ++ List.replicate (pad4k file.length - file.length) 0xff).length =
      pad4k file.length ∧
    (∀ i, file.length ≤ i → i < pad4k file.length →
      (file ++ List.replicate (pad4k file.length - file.length) 0xff).getD i 0 = 0xff) := by
  have hp4 := pad4k_eq file.length (by omega)
  have hp1 := pad1k_eq file.length (by omega)
  have hge4 : file.length ≤ pad4k file.length := by rw [hp4]; omega
  refine ⟨hp4, hge4, by rw [hp4]; omega, by rw [hp4]; omega, hp1,
    by rw [hp1]; omega, by rw [hp1]; omega, by rw [hp1]; omega, ?_, ?_, ?_⟩
  · unfold load_fw_image
    rw [if_neg (by simpa using h0)]
    rfl
  · simp only [List.length_append, List.length_replicate]
    omega
  · intro i hi1 hi2
    rw [List.getD_append_right _ _ _ _ hi1, getD_replicate,
      if_pos (by omega)]

/-- C7 witness: a 3-byte image pads to 4096 bytes with 0xFF fill, and its
verify window over the raw length is 1024. -/
theorem c7_padding_law_witness :
    pad4k ([1, 2, 3] : List Nat).length = 4096 ∧
    pad1k ([1, 2, 3] : List Nat).length = 1024 ∧
    ([1, 2, 3] ++
      List.replicate (pad4k ([1, 2, 3] : List Nat).length - 3) 0xff).getD 100 0 = 0xff := by
  have h := c7_padding_law [1, 2, 3] (by decide) (by norm_num)
  refine ⟨?_, ?_, ?_⟩
  · rw [h.1]
    norm_num
  · rw [h.2.2.2.2.1]
    norm_num
  · exact h.2.2.2.2.2.2.2.2.2.2 100 (by norm_num) (by rw [h.1]; norm_num)

lemma progLoop_trace (dev : Device) :
    ∀ (n : Nat) (img : List Nat) (address : Nat), img.length ≤ n →
      (∀ p ∈ (progLoop dev address img).2,
        p.2.length ≤ BSL_PROGGRAM_DATA_MAX_LEN ∧ p.2 ≠ []) ∧
      ChunkSeq address (progLoop dev address img).2 ∧
      ((progLoop dev address img).1 = true →
        ((progLoop dev address img).2.map Prod.snd).flatten = img) ∧
      ((progLoop dev address img).1 = false →
        ∃ pre last, (progLoop dev address img).2 = pre ++ [last] ∧
          dev.progOk last.1 last.2 = false ∧
          (∀ p ∈ pre, dev.progOk p.1 p.2 = true)) := by
  intro n
  induction n with
  | zero =>
    intro img address hlen
    have himg : img = [] := List.eq_nil_of_length_eq_zero (by omega)
    subst himg
    rw [progLoop]
    simp [ChunkSeq]
  | succ n ih =>
    intro img address hlen
    by_cases himg : img = []
    · subst himg
      rw [progLoop]
      simp [ChunkSeq]
    · rw [progLoop, dif_neg himg]
      have hpos : 0 < img.length := List.length_pos.mpr himg
      set W := if img.length > BSL_PROGGRAM_DATA_MAX_LEN
        then BSL_PROGGRAM_DATA_MAX_LEN else img.length with hwl
      have hW : 1 ≤ W ∧ W ≤ img.length ∧ W ≤ BSL_PROGGRAM_DATA_MAX_LEN := by
        rw [hwl]
        unfold BSL_PROGGRAM_DATA_MAX_LEN
        split <;> omega
      have hchunk : (img.take W).length = W := by
        rw [List.length_take]
        omega
      have hchne : img.take W ≠ [] := by
        intro hc
        have := congrArg List.length hc
        rw [hchunk] at this
        simp at this
        omega
      by_cases hok : dev.progOk address (img.take W) = true
      · rw [if_pos hok]
        have hdrop : (img.drop W).length ≤ n := by
          rw [List.length_drop]
          omega
        obtain ⟨ih1, ih2, ih3, ih4⟩ := ih (img.drop W) (address + W) hdrop
        refine ⟨?_, ?_, ?_, ?_⟩
        · intro p hp
          rcases List.mem_cons.mp hp with hph | hpt
          · subst hph
            exact ⟨by rw [hchunk]; exact hW.2.2, hchne⟩
          · exact ih1 p hpt
        · show ChunkSeq address ((address, img.take W) ::
            (progLoop dev (address + W) (img.drop W)).2)
          refine ⟨rfl, ?_⟩
          rw [hchunk]
          exact ih2
        · intro hs
          have hs2 : (progLoop dev (address + W) (img.drop W)).1 = true := hs
          show ((img.take W) ::
            (progLoop dev (address + W) (img.drop W)).2.map Prod.snd).flatten = img
          rw [List.flatten_cons, ih3 hs2, List.take_append_drop]
        · intro hf
          have hf2 : (progLoop dev (address + W) (img.drop W)).1 = false := hf
          obtain ⟨pre, last, htr, hlast, hpre⟩ := ih4 hf2
          refine ⟨(address, img.take W) :: pre, last, ?_, hlast, ?_⟩
          · show (address, img.take W) ::
              (progLoop dev (address + W) (img.drop W)).2 = _
            rw [htr, List.cons_append]
          · intro p hp
            rcases List.mem_cons.mp hp with hph | hpt
            · subst hph
              exact hok
            · exact hpre p hpt
      · rw [if_neg hok]
        refine ⟨?_, ⟨rfl, trivial⟩, ?_, ?_⟩
        · intro p hp
          rcases List.mem_cons.mp hp with hph | hpt
          · subst hph
            exact ⟨by rw [hchunk]; exact hW.2.2, hchne⟩
          · simp at hpt
        · intro hs
          exact absurd hs (by simp)
        · intro _
          refine ⟨[], (address, img.take W), by simp, ?_, by simp⟩
          simpa using hok

lemma load_fwImage (file : List Nat) (h : file ≠ []) :
    load_fw_image file 0 = some (fwImage file) := by
  unfold load_fw_image fwImage
  rw [if_neg (by simpa using h)]
  rfl

lemma cmd_prog_loop_fail (dev : Device) (file : List Nat) (h : file ≠ [])
    (hu : dev.unlockOk = true) (he : dev.eraseOk = true)
    (hfail : (progLoop dev 0 (fwImage file)).1 = false) :
    cmd_prog dev file = (1, progEvents dev file) := by
  unfold cmd_prog progEvents
  rw [load_fwImage file h]
  dsimp only
  rw [if_neg (by simp [hu]), if_neg (by simp [he]), if_pos hfail]

lemma cmd_prog_verify_none (dev : Device) (file : List Nat) (h : file ≠ [])
    (hu : dev.unlockOk = true) (he : dev.eraseOk = true)
    (hloop : (progLoop dev 0 (fwImage file)).1 = true)
    (hv : dev.verifyResp = none) :
    cmd_prog dev file =
      (1, progEvents dev file ++ [Event.verify 0 (pad1k (fwImage file).length)]) := by
  unfold cmd_prog progEvents
  rw [load_fwImage file h]
  dsimp only
  rw [if_neg (by simp [hu]), if_neg (by simp [he]), if_neg (by simp [hloop]), hv]

lemma cmd_prog_verify_some (dev : Device) (file : List Nat) (c : Nat) (h : file ≠ [])
    (hu : dev.unlockOk = true) (he : dev.eraseOk = true)
    (hloop : (progLoop dev 0 (fwImage file)).1 = true)
    (hv : dev.verifyResp = some c) :
    cmd_prog dev file =
      if crc32 ((fwImage file).take (pad1k (fwImage file).length)) ≠ c then
        (1, progEvents dev file ++ [Event.verify 0 (pad1k (fwImage file).length)])
      else
        (0, progEvents dev file ++ [Event.verify 0 (pad1k (fwImage file).length)]) := by
  unfold cmd_prog progEvents
  rw [load_fwImage file h]
  dsimp only
  rw [if_neg (by simp [hu]), if_neg (by simp [he]), if_neg (by simp [hloop]), hv]

lemma progLoop_all_ok (dev : Device) (hall : ∀ a c, dev.progOk a c = true) :
    ∀ (n : Nat) (img : List Nat) (a : Nat), img.length ≤ n →
      (progLoop dev a img).1 = true := by
  intro n
  induction n with
  | zero =>
    intro img a h
    have himg : img = [] := List.eq_nil_of_length_eq_zero (by omega)
    subst himg
    rw [progLoop]
    simp
  | succ n ih =>
    intro img a h
    by_cases himg : img = []
    · subst himg
      rw [progLoop]
      simp
    · rw [progLoop, dif_neg himg]
      have hpos : 0 < img.length := List.length_pos.mpr himg
      rw [if_pos (hall _ _)]
      apply ih
      rw [List.length_drop]
      unfold BSL_PROGGRAM_DATA_MAX_LEN
      split <;> omega

/-- C6: the programming loop of cmd_prog sends chunks of exactly
min(remaining, 256) bytes.  For every device and every image: every chunk
in the trace is non-empty and at most 256 bytes, the chunk addresses are
consecutive starting from the loop's start address, on success the chunks
concatenate back to exactly the image (every byte written once, in
order), and on failure the loop stopped at the first failed chunk — the
trace is the successful prefix plus the one failing chunk.  When the
unlock and erase stages passed and the loop of a session fails, cmd_prog
(which starts the loop at address 0) returns rc 1 with only unlock, erase
and program-data events: no verification and no start-application is
attempted. -/
theorem c6_program_loop (dev : Device) (img : List Nat) (address : Nat) (file : List Nat) :
    (∀ p ∈ (progLoop dev address img).2,
      p.2.length ≤ BSL_PROGGRAM_DATA_MAX_LEN ∧ p.2 ≠ []) ∧
    ChunkSeq address (progLoop dev address img).2 ∧
    ((progLoop dev address img).1 = true →
      ((progLoop dev address img).2.map Prod.snd).flatten = img) ∧
    ((progLoop dev address img).1 = false →
      ∃ pre last, (progLoop dev address img).2 = pre ++ [last] ∧
        dev.progOk last.1 last.2 = false ∧
        (∀ p ∈ pre, dev.progOk p.1 p.2 = true)) ∧
    (dev.unlockOk = true → dev.eraseOk = true → file ≠ [] →
      (progLoop dev 0 (fwImage file)).1 = false →
      cmd_prog dev file = (1, progEvents dev file) ∧
      (∀ a l, Event.verify a l ∉ (cmd_prog dev file).2) ∧
      Event.startApp ∉ (cmd_prog dev file).2) := by
  obtain ⟨h1, h2, h3, h4⟩ := progLoop_trace dev img.length img address (le_refl _)
  refine ⟨h1, h2, h3, h4, ?_⟩
  intro hu he hfile hfail
  have habort := cmd_prog_loop_fail dev file hfile hu he hfail
  refine ⟨habort, ?_, ?_⟩
  · intro a l hmem
    rw [habort] at hmem
    unfold progEvents at hmem
    simp at hmem
  · intro hmem
    rw [habort] at hmem
    unfold progEvents at hmem
    simp at hmem

/-- C6 witness: an all-accepting device flashes a 3-byte image as a single
in-order chunk whose bytes concatenate back to the image, and a device
that rejects every chunk makes cmd_prog abort after the first
program-data call, with no verify event. -/
theorem c6_program_loop_witness :
    (((progLoop ⟨true, true, fun _ _ => true, some 0⟩ 0 [1, 2, 3]).2.map
      Prod.snd).flatten = [1, 2, 3]) ∧
    (∀ p ∈ (progLoop ⟨true, true, fun _ _ => true, some 0⟩ 0 [1, 2, 3]).2,
      p.2.length ≤ BSL_PROGGRAM_DATA_MAX_LEN ∧ p.2 ≠ []) ∧
    ChunkSeq 0 (progLoop ⟨true, true, fun _ _ => true, some 0⟩ 0 [1, 2, 3]).2 ∧
    (cmd_prog ⟨true, true, fun _ _ => false, some 0⟩ [7] =
      (1, progEvents ⟨true, true, fun _ _ => false, some 0⟩ [7])) ∧
    (∀ a l, Event.verify a l ∉
      (cmd_prog ⟨true, true, fun _ _ => false, some 0⟩ [7]).2) := by
  have hok := c6_program_loop ⟨true, true, fun _ _ => true, some 0⟩ [1, 2, 3] 0 [7]
  have hsucc : (progLoop ⟨true, true, fun _ _ => true, some 0⟩ 0 [1, 2, 3]).1 = true :=
    progLoop_all_ok ⟨true, true, fun _ _ => true, some 0⟩ (fun _ _ => rfl)
      3 [1, 2, 3] 0 (by simp)
  have hfail : (progLoop ⟨true, true, fun _ _ => false, some 0⟩ 0 (fwImage [7])).1 = false := by
    rw [progLoop, dif_neg (show fwImage [7] ≠ [] by unfold fwImage; simp)]
    simp
  have h := c6_program_loop ⟨true, true, fun _ _ => false, some 0⟩ [] 0 [7]
  have habort := h.2.2.2.2 rfl rfl (by simp) hfail
  exact ⟨hok.2.2.1 hsucc, hok.1, hok.2.1, habort.1, habort.2.1⟩

lemma fwImage_length (file : List Nat) (hb : file.length < 2 ^ 31) :
    (fwImage file).length = pad4k file.length := by
  unfold fwImage
  have h4 := pad4k_eq file.length (by omega)
  simp only [List.length_append, List.length_replicate]
  omega

lemma pad1k_fwImage (file : List Nat) (hb : file.length < 2 ^ 31) :
    pad1k (fwImage file).length = (fwImage file).length := by
  rw [fwImage_length file hb]
  have h4 := pad4k_eq file.length (by omega)
  have hlt : pad4k file.length + 1023 < 2 ^ 32 := by
    rw [h4]
    omega
  rw [pad1k_eq _ hlt, h4]
  omega

/-- C1: after a fully successful programming loop, cmd_prog issues exactly
one standalone-verification request, at address 0 over the 1 KiB-rounded
image length (which for the 4 KiB-padded in-memory image is the image
length itself), computes the host CRC with the same crc32 over the same
padded image, and returns 0 exactly when the device CRC equals it; any
mismatch, or a failed verification exchange, makes cmd_prog return 1
(FAIL), never a silent success. -/
theorem c1_verify_crc (dev : Device) (file : List Nat) (hfile : file ≠ [])
    (hb : file.length < 2 ^ 31) (hu : dev.unlockOk = true) (he : dev.eraseOk = true)
    (hloop : (progLoop dev 0 (fwImage file)).1 = true) :
    pad1k (fwImage file).length = (fwImage file).length ∧
    (∀ c, dev.verifyResp = some c →
      (cmd_prog dev file).2 = progEvents dev file ++
        [Event.verify 0 (pad1k (fwImage file).length)] ∧
      ((cmd_prog dev file).1 = 0 ↔ c = crc32 (fwImage file)) ∧
      (c ≠ crc32 (fwImage file) → cmd_prog dev file =
        (1, progEvents dev file ++ [Event.verify 0 (pad1k (fwImage file).length)]))) ∧
    (dev.verifyResp = none → (cmd_prog dev file).1 = 1) := by
  have hp := pad1k_fwImage file hb
  have htake : (fwImage file).take (pad1k (fwImage file).length) = fwImage file := by
    rw [hp]
    exact List.take_length _
  refine ⟨hp, ?_, ?_⟩
  · intro c hv
    have hs := cmd_prog_verify_some dev file c hfile hu he hloop hv
    rw [htake] at hs
    by_cases hc : crc32 (fwImage file) = c
    · rw [if_neg (by simp [hc])] at hs
      refine ⟨by rw [hs], ?_, ?_⟩
      · rw [hs]
        exact iff_of_true rfl hc.symm
      · intro hne
        exact absurd hc.symm hne
    · rw [if_pos hc] at hs
      refine ⟨by rw [hs], ?_, fun _ => hs⟩
      rw [hs]
      exact iff_of_false (by simp) (fun hcc => hc hcc.symm)
  · intro hv
    rw [cmd_prog_verify_none dev file hfile hu he hloop hv]

/-- C1 witness: with an all-accepting device whose verify response is the
host CRC of the padded 1-byte image, cmd_prog returns 0; with the CRC off
by one it returns 1. -/
theorem c1_verify_crc_witness :
    (cmd_prog ⟨true, true, fun _ _ => true, some (crc32 (fwImage [7]))⟩ [7]).1 = 0 ∧
    (cmd_prog ⟨true, true, fun _ _ => true, some (crc32 (fwImage [7]) + 1)⟩ [7]).1 = 1 := by
  have hloop : ∀ r : Option Nat,
      (progLoop ⟨true, true, fun _ _ => true, r⟩ 0 (fwImage [7])).1 = true :=
    fun r => progLoop_all_ok ⟨true, true, fun _ _ => true, r⟩ (fun _ _ => rfl)
      (fwImage [7]).length (fwImage [7]) 0 (le_refl _)
  constructor
  · have h := c1_verify_crc ⟨true, true, fun _ _ => true, some (crc32 (fwImage [7]))⟩ [7]
      (by simp) (by norm_num) rfl rfl (hloop _)
    exact (h.2.1 (crc32 (fwImage [7])) rfl).2.1.mpr rfl
  · have h := c1_verify_crc ⟨true, true, fun _ _ => true, some (crc32 (fwImage [7]) + 1)⟩ [7]
      (by simp) (by norm_num) rfl rfl (hloop _)
    have h2 := (h.2.1 (crc32 (fwImage [7]) + 1) rfl).2.2 (by omega)
    rw [h2]

lemma streamConcat_succ_front (g : Nat → List Nat) (k : Nat) :
    streamConcat g (k + 1) = g 0 ++ streamConcat (fun j => g (j + 1)) k := by
  induction k with
  | zero => simp [streamConcat]
  | succ k ih =>
    show streamConcat g (k + 1) ++ g (k + 1) = _
    rw [ih]
    show _ = g 0 ++ (streamConcat (fun j => g (j + 1)) k ++ g (k + 1))
    rw [List.append_assoc]

lemma uartLoop_polls_le (env : Nat → PollOutcome) :
    ∀ (m read_len step : Nat) (acc : List Nat), read_len - acc.length ≤ m →
      (uartLoop env read_len step acc).2 ≤ read_len - acc.length := by
  intro m
  induction m with
  | zero =>
    intro read_len step acc h
    rw [uartLoop, dif_neg (by omega)]
    simp
  | succ m ih =>
    intro read_len step acc h
    by_cases hlt : acc.length < read_len
    · rw [uartLoop, dif_pos hlt]
      cases henv : env step with
      | failed =>
        dsimp only
        omega
      | timedOut =>
        dsimp only
        omega
      | ready avail =>
        dsimp only
        by_cases htk : avail.take (read_len - acc.length) = []
        · rw [if_pos htk]
          dsimp only
          omega
        · rw [if_neg htk]
          dsimp only
          have hlen : 1 ≤ (avail.take (read_len - acc.length)).length :=
            List.length_pos.mpr htk
          have hlen2 : (avail.take (read_len - acc.length)).length ≤ read_len - acc.length := by
            rw [List.length_take]
            omega
          have hrec := ih read_len (step + 1) (acc ++ avail.take (read_len - acc.length))
            (by simp only [List.length_append]; omega)
          simp only [List.length_append] at hrec
          omega
    · rw [uartLoop, dif_neg hlt]
      simp

lemma uartLoop_ok (env : Nat → PollOutcome) :
    ∀ (m read_len step : Nat) (acc rx : List Nat) (p : Nat), read_len - acc.length ≤ m →
      acc.length ≤ read_len →
      uartLoop env read_len step acc = (UartResult.ok rx, p) →
      rx.length = read_len ∧ acc <+: rx := by
  intro m
  induction m with
  | zero =>
    intro read_len step acc rx p hm hle heq
    rw [uartLoop, dif_neg (by omega)] at heq
    have hrx : rx = acc := by
      have h2 := congrArg Prod.fst heq
      simpa using h2.symm
    subst hrx
    exact ⟨by omega, List.prefix_refl _⟩
  | succ m ih =>
    intro read_len step acc rx p hm hle heq
    by_cases hlt : acc.length < read_len
    · rw [uartLoop, dif_pos hlt] at heq
      cases henv : env step with
      | failed =>
        rw [henv] at heq
        simp at heq
      | timedOut =>
        rw [henv] at heq
        simp at heq
      | ready avail =>
        rw [henv] at heq
        try dsimp only at heq
        by_cases htk : avail.take (read_len - acc.length) = []
        · rw [if_pos htk] at heq
          simp at heq
        · rw [if_neg htk] at heq
          try dsimp only at heq
          have hlen : 1 ≤ (avail.take (read_len - acc.length)).length :=
            List.length_pos.mpr htk
          have hlen2 : (avail.take (read_len - acc.length)).length ≤ read_len - acc.length := by
            rw [List.length_take]
            omega
          have heq2 : uartLoop env read_len (step + 1)
              (acc ++ avail.take (read_len - acc.length)) =
              (UartResult.ok rx,
                (uartLoop env read_len (step + 1)
                  (acc ++ avail.take (read_len - acc.length))).2) := by
            have h1 := congrArg Prod.fst heq
            dsimp at h1
            rw [Prod.ext_iff]
            exact ⟨h1, rfl⟩
          obtain ⟨hrl, hpre⟩ := ih read_len (step + 1)
            (acc ++ avail.take (read_len - acc.length)) rx _
            (by simp only [List.length_append]; omega)
            (by simp only [List.length_append]; omega) heq2
          exact ⟨hrl, (List.prefix_append _ _).trans hpre⟩
    · rw [uartLoop, dif_neg hlt] at heq
      have hrx : rx = acc := by
        have h2 := congrArg Prod.fst heq
        simpa using h2.symm
      subst hrx
      exact ⟨by omega, List.prefix_refl _⟩

lemma uartLoop_cooperative (env : Nat → PollOutcome) (f : Nat → List Nat)
    (hf : ∀ i, env i = PollOutcome.ready (f i)) (hne : ∀ i, f i ≠ []) :
    ∀ (m read_len step : Nat) (acc : List Nat), read_len - acc.length ≤ m →
      ∃ k, uartLoop env read_len step acc =
        (UartResult.ok (acc ++
          (streamConcat (fun j => f (step + j)) k).take (read_len - acc.length)), k) := by
  intro m
  induction m with
  | zero =>
    intro read_len step acc h
    refine ⟨0, ?_⟩
    rw [uartLoop, dif_neg (by omega)]
    have h0 : read_len - acc.length = 0 := by omega
    rw [h0]
    simp [streamConcat]
  | succ m ih =>
    intro read_len step acc h
    by_cases hlt : acc.length < read_len
    · have htk : (f step).take (read_len - acc.length) ≠ [] := by
        intro hc
        rcases hfs : f step with _ | ⟨b, bs⟩
        · exact hne step hfs
        · rw [hfs] at hc
          have := congrArg List.length hc
          rw [List.length_take] at this
          simp [hfs] at this
          omega
      have hlen : 1 ≤ ((f step).take (read_len - acc.length)).length :=
        List.length_pos.mpr htk
      have hlen2 : ((f step).take (read_len - acc.length)).length ≤ read_len - acc.length := by
        rw [List.length_take]
        omega
      obtain ⟨k, hk⟩ := ih read_len (step + 1) (acc ++ (f step).take (read_len - acc.length))
        (by simp only [List.length_append]; omega)
      refine ⟨k + 1, ?_⟩
      rw [uartLoop, dif_pos hlt, hf step]
      try dsimp only
      rw [if_neg htk]
      try dsimp only
      rw [hk]
      refine Prod.ext ?_ rfl
      try dsimp only
      congr 1
      have hshift : (fun j => f (step + 1 + j)) = (fun j => f (step + (j + 1))) := by
        funext j
        congr 1
        omega
      rw [streamConcat_succ_front, List.take_append_eq_append_take, hshift,
        List.append_assoc]
      simp only [Nat.add_zero]
      congr 2
      simp only [List.length_append]
      congr 1
      rw [List.length_take]
      omega
    · refine ⟨0, ?_⟩
      rw [uartLoop, dif_neg hlt]
      have h0 : read_len - acc.length = 0 := by omega
      rw [h0]
      simp [streamConcat]

/-- C8: uart_write_read always terminates.  It first writes the whole
request; the poll loop then consumes at most read_len - idx further poll
cycles (each a select() wait bounded by timeout_ms = 500 ms), success
delivers exactly the expected byte count with the already-accumulated
prefix preserved, a poll cycle that yields nothing fails immediately with
the timeout error, and with a responsive line the result is the first
read_len bytes of the in-order concatenation of the partial reads — no
reordering, no infinite wait. -/
theorem c8_uart_terminates :
    timeout_ms = 500 ∧
    (∀ (env : Nat → PollOutcome) (tx : List Nat) (read_len : Nat),
      (uart_write_read env tx read_len).1 = tx) ∧
    (∀ (env : Nat → PollOutcome) (read_len step : Nat) (acc : List Nat),
      (uartLoop env read_len step acc).2 ≤ read_len - acc.length) ∧
    (∀ (env : Nat → PollOutcome) (read_len step : Nat) (acc rx : List Nat) (p : Nat),
      acc.length ≤ read_len →
      uartLoop env read_len step acc = (UartResult.ok rx, p) →
      rx.length = read_len ∧ acc <+: rx) ∧
    (∀ (env : Nat → PollOutcome) (read_len step : Nat) (acc : List Nat),
      acc.length < read_len → env step = PollOutcome.timedOut →
      uartLoop env read_len step acc = (UartResult.timeoutError, 1)) ∧
    (∀ (env : Nat → PollOutcome) (f : Nat → List Nat) (read_len : Nat),
      (∀ i, env i = PollOutcome.ready (f i)) → (∀ i, f i ≠ []) →
      ∃ k, uartLoop env read_len 0 [] =
        (UartResult.ok ((streamConcat f k).take read_len), k)) := by
  refine ⟨rfl, fun env tx read_len => rfl, ?_, ?_, ?_, ?_⟩
  · intro env read_len step acc
    exact uartLoop_polls_le env (read_len - acc.length) read_len step acc (le_refl _)
  · intro env read_len step acc rx p hle heq
    exact uartLoop_ok env (read_len - acc.length) read_len step acc rx p (le_refl _) hle heq
  · intro env read_len step acc hlt henv
    rw [uartLoop, dif_pos hlt, henv]
  · intro env f read_len hf hne
    obtain ⟨k, hk⟩ := uartLoop_cooperative env f hf hne read_len read_len 0 [] (by simp)
    refine ⟨k, ?_⟩
    rw [hk]
    have hfun : (fun j => f (0 + j)) = f := by
      funext j
      congr 1
      omega
    rw [hfun]
    simp

/-- C8 witness: a silent line times out after one poll; a line delivering
one byte per poll assembles the expected read in order. -/
theorem c8_uart_terminates_witness :
    uartLoop (fun _ => PollOutcome.timedOut) 5 0 [] = (UartResult.timeoutError, 1) ∧
    (∃ k, uartLoop (fun _ => PollOutcome.ready [0xaa]) 2 0 [] =
      (UartResult.ok ((streamConcat (fun _ => [0xaa]) k).take 2), k)) := by
  constructor
  · exact c8_uart_terminates.2.2.2.2.1 (fun _ => PollOutcome.timedOut) 5 0 []
      (by simp) rfl
  · exact c8_uart_terminates.2.2.2.2.2 (fun _ => PollOutcome.ready [0xaa])
      (fun _ => [0xaa]) 2 (fun i => rfl) (fun i => by simp)

end Mspm0
